import Mathlib

/-!
Verification of the guard/pragma detection-and-rewrite engine of the
`cpp-guard-buddy` editor extension (source: `src/extention.ts`).

A document is modelled as its list of lines (`List Char` each, no line
terminators), exactly as exposed by the editor host through `lineCount` /
`lineAt(i).text`.  The JavaScript regular expressions used by the source are
modelled as executable character-list matchers; `\s` is modelled by the ASCII
whitespace characters, `\w` / `\b` by `[A-Za-z0-9_]` word characters, matching
the JS semantics on the ASCII inputs these scanners are designed for.

Staged multi-region edits (`TextEditorEdit`) are modelled by the resulting
document: every region of an edit batch is addressed against the pre-edit
document, so a batch is embedded as one pure function from the old line list
to the new one.
-/

/-- A single document line (the text of `doc.lineAt(i).text`, without EOL). -/
abbrev Line := List Char

/-- Model of JS `\s` (and of `String.prototype.trim`'s notion of whitespace)
restricted to the ASCII range: space, tab, line/form feeds, CR, vertical tab. -/
def isWs (c : Char) : Bool :=
  c == ' ' || c == '\t' || c == '\n' || c == '\r' || c == '\x0b' || c == '\x0c'

/-- Uppercase letter or digit, i.e. the class `[A-Z0-9]`. -/
def isUpperDigit (c : Char) : Bool :=
  (decide (65 ≤ c.toNat ∧ c.toNat ≤ 90)) || (decide (48 ≤ c.toNat ∧ c.toNat ≤ 57))

/-- Lowercase ASCII letter, i.e. the class `[a-z]`. -/
def isLowerAlpha (c : Char) : Bool :=
  decide (97 ≤ c.toNat ∧ c.toNat ≤ 122)

/-- The character class `[A-Z0-9_]` used by the guard regexes for macro names. -/
def isMacroChar (c : Char) : Bool := isUpperDigit c || c == '_'

/-- ASCII alphanumeric, the class `[A-Za-z0-9]`. -/
def isAsciiAlnum (c : Char) : Bool := isUpperDigit c || isLowerAlpha c

/-- Model of JS `\w`: the class `[A-Za-z0-9_]`. -/
def isWordChar (c : Char) : Bool := isAsciiAlnum c || c == '_'

/-- Drop the leading run of whitespace (the regex piece `\s*`, maximal munch,
which is exact here because each follow-up token starts with a non-space). -/
def dropWs (l : Line) : Line := l.dropWhile isWs

/-- Left-then-right whitespace trimming, modelling JS `String.prototype.trim`. -/
def trimL (l : Line) : Line := ((l.dropWhile isWs).reverse.dropWhile isWs).reverse

/-- Whether the first list is a prefix of the second. -/
def startsWithL : Line → Line → Bool
  | [], _ => true
  | _ :: _, [] => false
  | p :: ps, c :: cs => p == c && startsWithL ps cs

/-- A JS word boundary `\b` placed after a word character: it holds when the
remaining text is empty or starts with a non-word character. -/
def wordBoundaryAfter (l : Line) : Bool :=
  match l with
  | [] => true
  | c :: _ => !isWordChar c

/-- The keyword `pragma` as a character list. -/
def pragmaKw : Line := ['p', 'r', 'a', 'g', 'm', 'a']

/-- The keyword `once` as a character list. -/
def onceKw : Line := ['o', 'n', 'c', 'e']

/-- The keyword `ifndef` as a character list. -/
def ifndefKw : Line := ['i', 'f', 'n', 'd', 'e', 'f']

/-- The keyword `define` as a character list. -/
def defineKw : Line := ['d', 'e', 'f', 'i', 'n', 'e']

/-- The keyword `endif` as a character list. -/
def endifKw : Line := ['e', 'n', 'd', 'i', 'f']

/-- Matcher for `/^\s*#\s*pragma\s+once\b/` (source lines 83 and 246). -/
def matchPragmaOnce (l : Line) : Bool :=
  match dropWs l with
  | [] => false
  | c :: r1 =>
    c == '#' &&
      (let r2 := dropWs r1
       startsWithL pragmaKw r2 &&
        (match r2.drop 6 with
         | [] => false
         | c2 :: _ =>
           isWs c2 &&
            (let r4 := dropWs (r2.drop 6)
             startsWithL onceKw r4 && wordBoundaryAfter (r4.drop 4))))

/-- Matcher for `/^\s*#\s*ifndef\s+([A-Z0-9_]+)/` (source line 110); returns
the captured macro name (the maximal run of `[A-Z0-9_]` after the whitespace),
or `none` when the line does not match. -/
def matchIfndef (l : Line) : Option Line :=
  match dropWs l with
  | [] => none
  | c :: r1 =>
    if c == '#' then
      let r2 := dropWs r1
      if startsWithL ifndefKw r2 then
        match r2.drop 6 with
        | [] => none
        | c2 :: _ =>
          if isWs c2 then
            let m := (dropWs (r2.drop 6)).takeWhile isMacroChar
            if m.isEmpty then none else some m
          else none
      else none
    else none

/-- Matcher for ``new RegExp(`^\\s*#\\s*define\\s+${macro}\\b`)`` (source
line 115): `#define` followed by the given macro as a whole word. -/
def matchDefine (mac : Line) (l : Line) : Bool :=
  match dropWs l with
  | [] => false
  | c :: r1 =>
    c == '#' &&
      (let r2 := dropWs r1
       startsWithL defineKw r2 &&
        (match r2.drop 6 with
         | [] => false
         | c2 :: _ =>
           isWs c2 &&
            (let r4 := dropWs (r2.drop 6)
             startsWithL mac r4 && wordBoundaryAfter (r4.drop mac.length))))

/-- Common head of the two `#endif` matchers: parses `^\s*#\s*endif\b` and
returns the text following `endif`, or `none` when the line does not match. -/
def matchEndifTail (l : Line) : Option Line :=
  match dropWs l with
  | [] => none
  | c :: r1 =>
    if c == '#' then
      let r2 := dropWs r1
      if startsWithL endifKw r2 then
        let r3 := r2.drop 5
        if wordBoundaryAfter r3 then some r3 else none
      else none
    else none

/-- Matcher for `/^\s*#\s*endif\b/` (source line 135, the bare fallback). -/
def matchEndifBare (l : Line) : Bool := (matchEndifTail l).isSome

/-- Scans for an occurrence of `mac` preceded by a word boundary and followed
by one (the regex piece `.*\bMACRO\b`); `prev` is the character immediately
before the current position, so that the boundary before a candidate
occurrence can be decided. -/
def containsWordOcc (mac : Line) : Char → Line → Bool
  | _, [] => false
  | prev, c :: rest =>
    (!isWordChar prev && startsWithL mac (c :: rest) &&
       wordBoundaryAfter ((c :: rest).drop mac.length))
      || containsWordOcc mac c rest

/-- Matcher for ``new RegExp(`^\\s*#\\s*endif\\b.*\\b${macro}\\b`)`` (source
line 130): an `#endif` annotated anywhere later with the macro as a whole
word.  The character before the scanned tail is the final `f` of `endif`. -/
def matchEndifMacro (mac : Line) (l : Line) : Bool :=
  match matchEndifTail l with
  | some r3 => containsWordOcc mac 'f' r3
  | none => false

/-- Line access, `doc.lineAt(i).text`; out-of-range indices (never produced by
the source's loops) default to the empty line. -/
def lineAt (doc : List Line) (i : Nat) : Line := doc.getD i []

/-- A line is "substantive" when its trimmed text is non-empty and is neither
a `//` line comment nor a `/*` block-comment opener: the early-exit condition
of `hasPragmaOnce` (source line 86). -/
def substantive (t : Line) : Bool :=
  !(trimL t).isEmpty && !startsWithL ['/', '/'] (trimL t)
    && !startsWithL ['/', '*'] (trimL t)

/-- Loop of `hasPragmaOnce` (source lines 81-87): scan from line `i` with the
given remaining iteration count, returning at the first pragma match and
stopping at the first substantive line. -/
def hasPragmaOnceAux (doc : List Line) : Nat → Nat → Bool
  | _, 0 => false
  | i, fuel + 1 =>
    if matchPragmaOnce (lineAt doc i) then true
    else if substantive (lineAt doc i) then false
    else hasPragmaOnceAux doc (i + 1) fuel

/-- `hasPragmaOnce` (source lines 80-89): is `#pragma once` present in the
first `min(50, lineCount)` lines, before any substantive line? -/
def hasPragmaOnce (doc : List Line) : Bool :=
  hasPragmaOnceAux doc 0 (min 50 doc.length)

/-- First index `i` in `[start, start+fuel)` with `p i = true`. -/
def findFirstIdx (p : Nat → Bool) : Nat → Nat → Option Nat
  | _, 0 => none
  | i, fuel + 1 => if p i then some i else findFirstIdx p (i + 1) fuel

/-- Largest index `k < n` with `p k = true`, found scanning downward from the
end (the shape of both `#endif` loops, source lines 128-137). -/
def findLastIdx (p : Nat → Bool) : Nat → Option Nat
  | 0 => none
  | k + 1 => if p k then some k else findLastIdx p k

/-- The located classic include guard (source return value of
`extractGuardMacro`); the `macro` field of the source is called `mac` here
because `macro` is a reserved word in Lean. -/
structure GuardInfo where
  mac : Line
  ifndefLine : Nat
  defineLine : Nat
  endifLine : Nat
deriving DecidableEq, Repr

/-- First phase of `extractGuardMacro` (source lines 104-124): the first
`#ifndef MACRO` within `min(60, lineCount)` lines, paired with a matching
`#define MACRO` at most 5 lines below (still within the scan bound).  The
outer scan stops at the first `#ifndef` whether or not the pairing is found. -/
def findHeaderPair (doc : List Line) : Option (Nat × Line × Nat) :=
  match findFirstIdx (fun i => (matchIfndef (lineAt doc i)).isSome) 0
      (min 60 doc.length) with
  | none => none
  | some i =>
    match matchIfndef (lineAt doc i) with
    | none => none
    | some mac =>
      match findFirstIdx (fun j => matchDefine mac (lineAt doc j)) (i + 1)
          (min (i + 6) (min 60 doc.length) - (i + 1)) with
      | none => none
      | some j => some (i, mac, j)

/-- Second phase of `extractGuardMacro` (source lines 126-137): the last line
matching an annotated `#endif ... MACRO`, else the last line matching a bare
`#endif`, scanning bottom-up. -/
def findEndif (doc : List Line) (mac : Line) : Option Nat :=
  match findLastIdx (fun k => matchEndifMacro mac (lineAt doc k)) doc.length with
  | some k => some k
  | none => findLastIdx (fun k => matchEndifBare (lineAt doc k)) doc.length

/-- `extractGuardMacro` (source lines 98-140). -/
def extractGuardMacro (doc : List Line) : Option GuardInfo :=
  match findHeaderPair doc with
  | none => none
  | some (i, mac, j) =>
    match findEndif doc mac with
    | none => none
    | some k => some ⟨mac, i, j, k⟩

/-- ASCII uppercase conversion, the effect of JS `toUpperCase` on the ASCII
range (non-ASCII characters are left unchanged by this model). -/
def jsUpperAscii (c : Char) : Char :=
  if isLowerAlpha c then Char.ofNat (c.toNat - 32) else c

/-- ASCII lowercase conversion, the effect of JS `toLowerCase` on the ASCII
range. -/
def jsLowerAscii (c : Char) : Char :=
  if isUpperDigit c && decide (c.toNat ≤ 90) && decide (65 ≤ c.toNat) then
    Char.ofNat (c.toNat + 32)
  else c

/-- Does the macro already end in `_H`, `_HPP`, `_HH` or `_HXX`?  This is the
test `/_H(PP|H|XX)?$/` of source line 154: a regex match ending at `$` exists
exactly when one of the four strings is a suffix. -/
def guardSuffixOk (m : Line) : Bool :=
  startsWithL ['H', '_'] m.reverse || startsWithL ['P', 'P', 'H', '_'] m.reverse
    || startsWithL ['H', 'H', '_'] m.reverse
    || startsWithL ['X', 'X', 'H', '_'] m.reverse

/-- `computeMacro` (source lines 148-156) applied to the already-relativised
path `rel` (the host resolves `rel` as `path.relative(workspaceRoot, file)`
when a workspace root is known and `path.basename(file)` otherwise):
uppercase, replace every character outside `[A-Z0-9]` by `_`, then append
`_H` unless the result already ends in `_H`/`_HPP`/`_HH`/`_HXX`. -/
def computeMacro (rel : Line) : Line :=
  let m := (rel.map jsUpperAscii).map (fun c => if isUpperDigit c then c else '_')
  if guardSuffixOk m then m else m ++ ['_', 'H']

/-- Node `path.basename` (posix separators): the part after the last `/`. -/
def basenameL (p : Line) : Line := (p.reverse.takeWhile (fun c => !(c == '/'))).reverse

/-- Node `path.extname` (posix): the suffix of the basename starting at its
last `.`, or empty when there is no dot or the only dot is the leading one
(dotfile rule). -/
def extnameL (p : Line) : Line :=
  let b := basenameL p
  let afterDotRev := b.reverse.takeWhile (fun c => !(c == '.'))
  if afterDotRev.length + 2 ≤ b.length then '.' :: afterDotRev.reverse else []

/-- The document as this core sees it.  `fileName` is the full path; `rel` is
the host-resolved relative path fed to `computeMacro` (see there); `lines` is
the line list. -/
structure TextDocument where
  fileName : Line
  rel : Line
  lines : List Line
deriving DecidableEq, Repr

/-- `isHeader` (source lines 69-72): the lowercased extension is one of the
four C/C++ header suffixes. -/
def isHeader (d : TextDocument) : Bool :=
  let e := (extnameL d.fileName).map jsLowerAscii
  e == ['.', 'h'] || e == ['.', 'h', 'p', 'p'] || e == ['.', 'h', 'h']
    || e == ['.', 'h', 'x', 'x']

/-- Outcome of one user-facing operation: the two failure classifications of
the spec's error taxonomy, or success with the post-edit line list.  The
failure constructors carry no document because the source returns before
calling `ed.edit`, so no edit at all is applied on those paths. -/
inductive OpOutcome where
  | notAHeader
  | alreadyProtected
  | ok (lines : List Line)
deriving DecidableEq, Repr

/-- The lines visible after an operation: the new lines on success, the
untouched originals on failure. -/
def resultLines (d : TextDocument) (o : OpOutcome) : List Line :=
  match o with
  | .ok l => l
  | _ => d.lines

/-- The text `#pragma once` as a line. -/
def pragmaLineTxt : Line := ['#', 'p', 'r', 'a', 'g', 'm', 'a', ' ', 'o', 'n', 'c', 'e']

/-- The line `#ifndef MACRO`. -/
def ifndefLineTxt (mac : Line) : Line :=
  '#' :: 'i' :: 'f' :: 'n' :: 'd' :: 'e' :: 'f' :: ' ' :: mac

/-- The line `#define MACRO`. -/
def defineLineTxt (mac : Line) : Line :=
  '#' :: 'd' :: 'e' :: 'f' :: 'i' :: 'n' :: 'e' :: ' ' :: mac

/-- The line `#endif // MACRO`. -/
def endifLineTxt (mac : Line) : Line :=
  '#' :: 'e' :: 'n' :: 'd' :: 'i' :: 'f' :: ' ' :: '/' :: '/' :: ' ' :: mac

/-- The three lines contributed by inserting `"#ifndef M\n#define M\n\n"` at
position `(0,0)` (source lines 178-179): they are prepended to the document. -/
def guardHeaderLines (mac : Line) : List Line :=
  [ifndefLineTxt mac, defineLineTxt mac, []]

/-- The two lines contributed by inserting `"\n#endif // M\n"` at position
`(lineCount, 0)` (source lines 180-181): the position is clamped to the end of
the last line, the leading newline terminates it, and the trailing newline
leaves a final empty line. -/
def guardFooterLines (mac : Line) : List Line :=
  [endifLineTxt mac, []]

/-- The two lines contributed by inserting `"#pragma once\n\n"` at `(0,0)`
(source line 205). -/
def pragmaHeaderLines : List Line := [pragmaLineTxt, []]

/-- `insertGuard` (source lines 163-185). -/
def insertGuard (d : TextDocument) : OpOutcome :=
  if !isHeader d then .notAHeader
  else if hasPragmaOnce d.lines || (extractGuardMacro d.lines).isSome then
    .alreadyProtected
  else
    .ok (guardHeaderLines (computeMacro d.rel) ++ d.lines
          ++ guardFooterLines (computeMacro d.rel))

/-- Simultaneous effect, on the original line indices, of the two deletions
staged by the guard-removal edit (source lines 208-215): the whole-line span
`Range(ifndefLine, 0, defineLine + 1, 0)` disappears, and the deletion
`Range(endifLine, 0, endifLine, length)` empties the `#endif` line's text
while keeping the line itself. -/
def removeGuardLines (g : GuardInfo) (lines : List Line) : List Line :=
  (List.range lines.length).filterMap fun i =>
    if g.ifndefLine ≤ i && i < g.defineLine + 1 then none
    else if i == g.endifLine then some [] else some (lineAt lines i)

/-- `usePragmaOnce` (source lines 192-220). -/
def usePragmaOnce (d : TextDocument) : OpOutcome :=
  if !isHeader d then .notAHeader
  else if hasPragmaOnce d.lines then .alreadyProtected
  else
    .ok (pragmaHeaderLines ++ (match extractGuardMacro d.lines with
      | none => d.lines
      | some g => removeGuardLines g d.lines))

/-- Scan of the pragma-removal loop in `toggleGuardOrPragma` (source lines
244-259): walk the first `min(50, lineCount)` lines; at the first pragma
match, return its index together with whether the next line exists and trims
to empty (that line's text is also deleted); stop at the first line with
non-empty trimmed text. -/
def pragmaClearIdx (doc : List Line) : Nat → Nat → Option (Nat × Bool)
  | _, 0 => none
  | i, fuel + 1 =>
    if matchPragmaOnce (lineAt doc i) then
      some (i, decide (i + 1 < doc.length) && (trimL (lineAt doc (i + 1))).isEmpty)
    else if !(trimL (lineAt doc i)).isEmpty then none
    else pragmaClearIdx doc (i + 1) fuel

/-- Effect of the staged pragma-removal deletions: the located pragma line
(and, when flagged, the following blank line) have their text deleted, which
leaves empty lines; nothing is deleted when the scan found no pragma. -/
def clearPragma (doc : List Line) : List Line :=
  match pragmaClearIdx doc 0 (min 50 doc.length) with
  | none => doc
  | some (i, alsoNext) =>
    (List.range doc.length).map fun k =>
      if k == i || (alsoNext && k == i + 1) then [] else lineAt doc k

/-- `toggleGuardOrPragma` (source lines 230-293). -/
def toggle (d : TextDocument) : OpOutcome :=
  if !isHeader d then .notAHeader
  else if hasPragmaOnce d.lines then
    .ok (guardHeaderLines (computeMacro d.rel) ++ clearPragma d.lines
          ++ guardFooterLines (computeMacro d.rel))
  else
    match extractGuardMacro d.lines with
    | some g => .ok (pragmaHeaderLines ++ removeGuardLines g d.lines)
    | none => insertGuard d

/-- The document after a `toggle`, with failure leaving the lines untouched. -/
def toggleDoc (d : TextDocument) : TextDocument :=
  { d with lines := resultLines d (toggle d) }

/-- The derived protection state of a document (source lines 306-308). -/
inductive ProtectionKind where
  | pragmaOnce
  | guard
  | noProt
deriving DecidableEq, Repr

/-- Protection-state classification: `#pragma once` wins, else a located
classic guard, else nothing. -/
def kindOf (lines : List Line) : ProtectionKind :=
  if hasPragmaOnce lines then .pragmaOnce
  else if (extractGuardMacro lines).isSome then .guard
  else .noProt

/-- Claim-side predicate for C3, written from the claim's words: the line's
trimmed content is empty, starts with `//`, or starts with `/*`. -/
def commentOrBlank (t : Line) : Bool :=
  (trimL t).isEmpty || startsWithL ['/', '/'] (trimL t)
    || startsWithL ['/', '*'] (trimL t)

/-- Claim-side reformulation of `computeMacro` for C6, following the claim's
words: every character outside `[A-Za-z0-9]` is replaced by `_`, the whole
string is uppercased, and `_H` is appended unless the result already ends in
`_H`, `_HPP`, `_HH` or `_HXX`. -/
def computeMacroSpec (rel : Line) : Line :=
  let m := (rel.map (fun c => if isAsciiAlnum c then c else '_')).map jsUpperAscii
  if guardSuffixOk m then m else m ++ ['_', 'H']

/-- The spec's `MacroName` grammar: a non-empty string over `[A-Z0-9_]`. -/
def isValidMacroName (m : Line) : Bool := !m.isEmpty && m.all isMacroChar

/-- Claim-side result of `UsePragmaOnce` for C7 as the claim states it:
`#pragma once` plus a blank line inserted at the start, the header span from
`ifndefLine` through `defineLine` inclusive deleted, and the `#endif` line at
`endifLine` deleted (the line removed). -/
def specConvertedRemove (g : GuardInfo) (lines : List Line) : List Line :=
  [pragmaLineTxt, []] ++ (List.range lines.length).filterMap fun i =>
    if g.ifndefLine ≤ i ∧ i ≤ g.defineLine then none
    else if i = g.endifLine then none
    else lines[i]?

/-- Claim-side result of `UsePragmaOnce` for the amended C7: as in
`specConvertedRemove`, except that the `#endif` line only has its text
deleted, so an empty line remains in its place. -/
def specConvertedClear (g : GuardInfo) (lines : List Line) : List Line :=
  [pragmaLineTxt, []] ++ (List.range lines.length).filterMap fun i =>
    if g.ifndefLine ≤ i ∧ i ≤ g.defineLine then none
    else if i = g.endifLine then some []
    else lines[i]?

/-- The macro name `FOO_H` used by the concrete example documents. -/
def fooHMac : Line := ['F', 'O', 'O', '_', 'H']

/-- A substantive code line, `int x;`. -/
def intXLine : Line := ['i', 'n', 't', ' ', 'x', ';']

/-- A bare `#endif` line. -/
def bareEndifLine : Line := ['#', 'e', 'n', 'd', 'i', 'f']

/-- A `//` comment line. -/
def commentLine : Line := ['/', '/', ' ', 'c']

/-- The path `a.h`. -/
def pathAH : Line := ['a', '.', 'h']

/-- The path `math.h`. -/
def pathMathH : Line := ['m', 'a', 't', 'h', '.', 'h']

/-- The path `notes.txt`, not a header. -/
def pathTxt : Line := ['n', 'o', 't', 'e', 's', '.', 't', 'x', 't']

/-- An eligible, empty, unprotected document (`math.h`). -/
def docEmptyH : TextDocument := ⟨pathMathH, pathMathH, [[]]⟩

/-- A non-header document (`notes.txt`) with one code line. -/
def docTxt : TextDocument := ⟨pathTxt, pathTxt, [intXLine]⟩

/-- Lines holding a comment followed by `#pragma once`. -/
def commentPragmaLines : List Line := [commentLine, pragmaLineTxt]

/-- An eligible document whose `#pragma once` is preceded by a `//` comment. -/
def docCommentPragma : TextDocument := ⟨pathAH, pathAH, commentPragmaLines⟩

/-- An eligible document whose `#pragma once` is preceded only by one blank
line and followed by code. -/
def docBlankPragma : TextDocument := ⟨pathAH, pathAH, [[], pragmaLineTxt, intXLine]⟩

/-- Lines with a lone `#ifndef` whose pairing `#define` is missing. -/
def loneIfndefLines : List Line :=
  [ifndefLineTxt ['F', 'O', 'O'], intXLine]

/-- Lines holding a fully classic guard with annotated `#endif`. -/
def classicGuardLines : List Line :=
  [ifndefLineTxt fooHMac, defineLineTxt fooHMac, intXLine, endifLineTxt fooHMac]

/-- Lines holding a classic guard whose only `#endif` is bare. -/
def bareGuardLines : List Line :=
  [ifndefLineTxt fooHMac, defineLineTxt fooHMac, intXLine, bareEndifLine]

/-- An eligible document carrying `bareGuardLines` (used against C7). -/
def docBareGuard : TextDocument := ⟨pathAH, pathAH, bareGuardLines⟩

/-- An eligible document carrying `classicGuardLines`. -/
def docClassicGuard : TextDocument := ⟨pathAH, pathAH, classicGuardLines⟩

/-- The guard located in `bareGuardLines` / `docBareGuard`. -/
def bareGuardInfo : GuardInfo := ⟨fooHMac, 0, 1, 3⟩

/-- Lines whose only `#endif` precedes the `#ifndef`/`#define` pair (used for
C10): the bottom-up fallback then returns an `endifLine` above the header. -/
def reversedEndifLines : List Line :=
  [bareEndifLine, ifndefLineTxt fooHMac, defineLineTxt fooHMac]

/-! ### Basic helper lemmas about the character classes and scanners -/

theorem isWs_false_of_isMacroChar {c : Char} (h : isMacroChar c = true) :
    isWs c = false := by
  rcases Bool.or_eq_true _ _ |>.mp h with h1 | h1
  · simp only [isUpperDigit, Bool.or_eq_true, decide_eq_true_eq] at h1
    simp only [isWs, Bool.or_eq_false_iff, beq_eq_false_iff_ne, ne_eq]
    refine ⟨⟨⟨⟨⟨?_, ?_⟩, ?_⟩, ?_⟩, ?_⟩, ?_⟩ <;>
      · rintro rfl; revert h1; decide
  · have : c = '_' := by simpa using h1
    subst this; decide

theorem dropWs_cons_of_not {c : Char} {xs : Line} (h : isWs c = false) :
    dropWs (c :: xs) = c :: xs := by
  simp [dropWs, List.dropWhile_cons, h]

theorem trimL_cons_of_not {c : Char} {xs : Line} (h : isWs c = false) :
    trimL (c :: xs) = c :: (xs.reverse.dropWhile isWs).reverse := by
  unfold trimL
  rw [List.dropWhile_cons]
  simp only [h, Bool.false_eq_true, if_false]
  rw [List.reverse_cons, List.dropWhile_append]
  by_cases he : (xs.reverse.dropWhile isWs).isEmpty
  · simp [he, List.dropWhile_cons, h, List.isEmpty_iff.mp he]
  · simp [he]

theorem trimL_cons_ne_nil {c : Char} {xs : Line} (h : isWs c = false) :
    (trimL (c :: xs)).isEmpty = false := by
  rw [trimL_cons_of_not h]; rfl

theorem dropWs_eq_nil_of_trimL_nil {t : Line} (h : (trimL t).isEmpty = true) :
    dropWs t = [] := by
  by_contra hne
  obtain ⟨c, cs, hc⟩ : ∃ c cs, dropWs t = c :: cs := by
    rcases hd : dropWs t with _ | ⟨c, cs⟩
    · exact absurd hd hne
    · exact ⟨c, cs, rfl⟩
  have hcw : isWs c = false := by
    have := List.head?_dropWhile_not isWs t
    rw [show t.dropWhile isWs = c :: cs from hc] at this
    simpa using this
  have : trimL t = trimL (c :: cs) := by
    unfold trimL; rw [show t.dropWhile isWs = c :: cs from hc]
    rw [List.dropWhile_cons]; simp [hcw]
  rw [this, trimL_cons_ne_nil hcw] at h
  exact absurd h (by simp)

theorem startsWithL_self_append (l rest : Line) :
    startsWithL l (l ++ rest) = true := by
  induction l with
  | nil => rfl
  | cons c cs ih => simp [startsWithL, ih]

theorem startsWithL_refl (l : Line) : startsWithL l l = true := by
  have := startsWithL_self_append l []
  simpa using this

theorem takeWhile_all_eq {l : Line} (h : l.all isMacroChar = true) :
    l.takeWhile isMacroChar = l := by
  induction l with
  | nil => rfl
  | cons c cs ih =>
    simp only [List.all_cons, Bool.and_eq_true] at h
    simp [List.takeWhile_cons, h.1, ih h.2]

/-! ### Evaluation of the matchers on the inserted guard lines -/

theorem matchPragmaOnce_ifndefLine (mac : Line) :
    matchPragmaOnce (ifndefLineTxt mac) = false := rfl

theorem matchEndifMacro_nil (mac : Line) : matchEndifMacro mac [] = false := rfl

theorem substantive_cons {c : Char} {xs : Line} (hws : isWs c = false)
    (hc : c ≠ '/') : substantive (c :: xs) = true := by
  unfold substantive
  rw [trimL_cons_of_not hws]
  have h1 : ('/' == c) = false := beq_eq_false_iff_ne.mpr (fun h => hc h.symm)
  simp [startsWithL, h1]

theorem matchIfndef_ifndefLine {mac : Line} (hne : mac ≠ [])
    (hall : mac.all isMacroChar = true) :
    matchIfndef (ifndefLineTxt mac) = some mac := by
  obtain ⟨m0, ms, rfl⟩ : ∃ m0 ms, mac = m0 :: ms := by
    cases mac with
    | nil => exact absurd rfl hne
    | cons a b => exact ⟨a, b, rfl⟩
  have h0 : isMacroChar m0 = true := by
    simp only [List.all_cons, Bool.and_eq_true] at hall; exact hall.1
  have hws0 : isWs m0 = false := isWs_false_of_isMacroChar h0
  have hstep : matchIfndef (ifndefLineTxt (m0 :: ms)) =
      (let m := (dropWs (' ' :: m0 :: ms)).takeWhile isMacroChar
       if m.isEmpty then none else some m) := rfl
  rw [hstep]
  have hdw : dropWs (' ' :: m0 :: ms) = m0 :: ms := by
    unfold dropWs
    rw [List.dropWhile_cons_of_pos (by decide)]
    exact dropWs_cons_of_not hws0
  simp only [hdw, takeWhile_all_eq hall]
  rfl

theorem matchDefine_defineLine {mac : Line} (hne : mac ≠ [])
    (hall : mac.all isMacroChar = true) :
    matchDefine mac (defineLineTxt mac) = true := by
  obtain ⟨m0, ms, rfl⟩ : ∃ m0 ms, mac = m0 :: ms := by
    cases mac with
    | nil => exact absurd rfl hne
    | cons a b => exact ⟨a, b, rfl⟩
  have h0 : isMacroChar m0 = true := by
    simp only [List.all_cons, Bool.and_eq_true] at hall; exact hall.1
  have hws0 : isWs m0 = false := isWs_false_of_isMacroChar h0
  have hstep : matchDefine (m0 :: ms) (defineLineTxt (m0 :: ms)) =
      (let r4 := dropWs (' ' :: m0 :: ms)
       startsWithL (m0 :: ms) r4 && wordBoundaryAfter (r4.drop (m0 :: ms).length)) :=
    rfl
  rw [hstep]
  have hdw : dropWs (' ' :: m0 :: ms) = m0 :: ms := by
    unfold dropWs
    rw [List.dropWhile_cons_of_pos (by decide)]
    exact dropWs_cons_of_not hws0
  simp only [hdw, startsWithL_refl, List.drop_length, Bool.true_and]
  rfl

theorem containsWordOcc_cons (mac : Line) (p c : Char) (l : Line)
    (h : containsWordOcc mac c l = true) :
    containsWordOcc mac p (c :: l) = true := by
  unfold containsWordOcc
  rw [h, Bool.or_true]

theorem containsWordOcc_self {mac : Line} (hne : mac ≠ []) :
    containsWordOcc mac ' ' mac = true := by
  obtain ⟨m0, ms, rfl⟩ : ∃ m0 ms, mac = m0 :: ms := by
    cases mac with
    | nil => exact absurd rfl hne
    | cons a b => exact ⟨a, b, rfl⟩
  unfold containsWordOcc
  rw [startsWithL_refl, List.drop_length]
  simp [wordBoundaryAfter, isWordChar, isAsciiAlnum, isUpperDigit, isLowerAlpha]

theorem matchEndifMacro_endifLine {mac : Line} (hne : mac ≠ []) :
    matchEndifMacro mac (endifLineTxt mac) = true := by
  have hstep : matchEndifMacro mac (endifLineTxt mac) =
      containsWordOcc mac 'f' (' ' :: '/' :: '/' :: ' ' :: mac) := rfl
  rw [hstep]
  apply containsWordOcc_cons
  apply containsWordOcc_cons
  apply containsWordOcc_cons
  apply containsWordOcc_cons
  exact containsWordOcc_self hne

theorem lineAt_append_right (A B : List Line) (k : Nat) :
    lineAt (A ++ B) (A.length + k) = lineAt B k := by
  unfold lineAt
  rw [List.getD_eq_getElem?_getD, List.getD_eq_getElem?_getD,
    List.getElem?_append_right (by omega),
    show A.length + k - A.length = k by omega]


/-! ### Characterizations of the index scanners -/

theorem findFirstIdx_eq_some_iff {p : Nat → Bool} {st fuel k : Nat} :
    findFirstIdx p st fuel = some k ↔
      st ≤ k ∧ k < st + fuel ∧ p k = true ∧ ∀ j, st ≤ j → j < k → p j = false := by
  induction fuel generalizing st with
  | zero =>
    simp only [findFirstIdx]
    constructor
    · intro h; exact absurd h (by simp)
    · rintro ⟨h1, h2, -, -⟩; omega
  | succ f ih =>
    unfold findFirstIdx
    by_cases h : p st = true
    · simp only [h, if_true, Option.some.injEq]
      constructor
      · rintro rfl
        exact ⟨Nat.le_refl _, by omega, h, fun j h1 h2 => by omega⟩
      · rintro ⟨h1, h2, h3, h4⟩
        by_contra hne
        have hlt : st < k := by omega
        have := h4 st (Nat.le_refl _) hlt
        rw [h] at this
        exact absurd this (by decide)
    · rw [if_neg (by simpa using h), ih]
      have hb : p st = false := by simpa using h
      constructor
      · rintro ⟨h1, h2, h3, h4⟩
        refine ⟨by omega, by omega, h3, fun j hj1 hj2 => ?_⟩
        rcases Nat.eq_or_lt_of_le hj1 with rfl | hj3
        · exact hb
        · exact h4 j hj3 hj2
      · rintro ⟨h1, h2, h3, h4⟩
        have hk : st ≠ k := by
          rintro rfl
          rw [hb] at h3
          exact absurd h3 (by decide)
        exact ⟨by omega, by omega, h3, fun j hj1 hj2 => h4 j (by omega) hj2⟩

theorem findFirstIdx_eq_none_iff {p : Nat → Bool} {st fuel : Nat} :
    findFirstIdx p st fuel = none ↔ ∀ j, st ≤ j → j < st + fuel → p j = false := by
  induction fuel generalizing st with
  | zero =>
    simp only [findFirstIdx]
    constructor
    · intro _ j hj1 hj2; omega
    · intro _; trivial
  | succ f ih =>
    unfold findFirstIdx
    by_cases h : p st = true
    · simp only [h, if_true]
      constructor
      · intro hx; exact absurd hx (by simp)
      · intro hx
        have := hx st (Nat.le_refl _) (by omega)
        rw [h] at this
        exact absurd this (by decide)
    · rw [if_neg (by simpa using h), ih]
      have hb : p st = false := by simpa using h
      constructor
      · intro hx j hj1 hj2
        rcases Nat.eq_or_lt_of_le hj1 with rfl | hj3
        · exact hb
        · exact hx j hj3 (by omega)
      · intro hx j hj1 hj2
        exact hx j (by omega) (by omega)

theorem findLastIdx_eq_some_iff {p : Nat → Bool} {n k : Nat} :
    findLastIdx p n = some k ↔
      k < n ∧ p k = true ∧ ∀ j, k < j → j < n → p j = false := by
  induction n with
  | zero =>
    simp only [findLastIdx]
    constructor
    · intro h; exact absurd h (by simp)
    · rintro ⟨h1, -, -⟩; omega
  | succ m ih =>
    unfold findLastIdx
    by_cases h : p m = true
    · simp only [h, if_true, Option.some.injEq]
      constructor
      · rintro rfl
        exact ⟨by omega, h, fun j h1 h2 => by omega⟩
      · rintro ⟨h1, h2, h3⟩
        by_contra hne
        have : k < m := by omega
        have := h3 m this (by omega)
        rw [h] at this
        exact absurd this (by decide)
    · rw [if_neg (by simpa using h), ih]
      have hb : p m = false := by simpa using h
      constructor
      · rintro ⟨h1, h2, h3⟩
        refine ⟨by omega, h2, fun j hj1 hj2 => ?_⟩
        rcases Nat.lt_or_ge j m with hj3 | hj3
        · exact h3 j hj1 hj3
        · have : j = m := by omega
          subst this; exact hb
      · rintro ⟨h1, h2, h3⟩
        have hk : k ≠ m := by
          rintro rfl
          rw [hb] at h2
          exact absurd h2 (by decide)
        exact ⟨by omega, h2, fun j hj1 hj2 => h3 j hj1 (by omega)⟩

theorem findLastIdx_eq_none_iff {p : Nat → Bool} {n : Nat} :
    findLastIdx p n = none ↔ ∀ j, j < n → p j = false := by
  induction n with
  | zero =>
    simp only [findLastIdx]
    constructor
    · intro _ j hj; omega
    · intro _; trivial
  | succ m ih =>
    unfold findLastIdx
    by_cases h : p m = true
    · simp only [h, if_true]
      constructor
      · intro hx; exact absurd hx (by simp)
      · intro hx
        have := hx m (by omega)
        rw [h] at this
        exact absurd this (by decide)
    · rw [if_neg (by simpa using h), ih]
      have hb : p m = false := by simpa using h
      constructor
      · intro hx j hj
        rcases Nat.lt_or_ge j m with hj3 | hj3
        · exact hx j hj3
        · have : j = m := by omega
          subst this; exact hb
      · intro hx j hj
        exact hx j (by omega)

/-! ### Characterization of the pragma scan -/

theorem hasPragmaOnceAux_iff {doc : List Line} {i fuel : Nat} :
    hasPragmaOnceAux doc i fuel = true ↔
      ∃ k, i ≤ k ∧ k < i + fuel ∧ matchPragmaOnce (lineAt doc k) = true ∧
        ∀ j, i ≤ j → j < k → substantive (lineAt doc j) = false := by
  induction fuel generalizing i with
  | zero =>
    simp only [hasPragmaOnceAux]
    constructor
    · intro h; exact absurd h (by decide)
    · rintro ⟨k, h1, h2, -, -⟩; omega
  | succ f ih =>
    unfold hasPragmaOnceAux
    by_cases hm : matchPragmaOnce (lineAt doc i) = true
    · simp only [hm, if_true, true_iff]
      exact ⟨i, Nat.le_refl _, by omega, hm, fun j h1 h2 => by omega⟩
    · rw [if_neg (by simpa using hm)]
      by_cases hs : substantive (lineAt doc i) = true
      · simp only [hs, if_true]
        constructor
        · intro h; exact absurd h (by decide)
        · rintro ⟨k, h1, h2, h3, h4⟩
          exfalso
          rcases Nat.eq_or_lt_of_le h1 with rfl | h5
          · exact hm h3
          · have := h4 i (Nat.le_refl _) h5
            rw [hs] at this
            exact absurd this (by decide)
      · rw [if_neg (by simpa using hs), ih]
        have hbs : substantive (lineAt doc i) = false := by simpa using hs
        have hbm : matchPragmaOnce (lineAt doc i) = false := by simpa using hm
        constructor
        · rintro ⟨k, h1, h2, h3, h4⟩
          refine ⟨k, by omega, by omega, h3, fun j hj1 hj2 => ?_⟩
          rcases Nat.eq_or_lt_of_le hj1 with rfl | hj3
          · exact hbs
          · exact h4 j hj3 hj2
        · rintro ⟨k, h1, h2, h3, h4⟩
          have hk : i ≠ k := by
            rintro rfl
            rw [hbm] at h3
            exact absurd h3 (by decide)
          exact ⟨k, by omega, by omega, h3, fun j hj1 hj2 => h4 j (by omega) hj2⟩

theorem matchPragmaOnce_of_trim_nil {t : Line} (h : (trimL t).isEmpty = true) :
    matchPragmaOnce t = false := by
  unfold matchPragmaOnce
  rw [dropWs_eq_nil_of_trimL_nil h]

theorem substantive_of_trim_nil {t : Line} (h : (trimL t).isEmpty = true) :
    substantive t = false := by
  unfold substantive
  rw [h]
  rfl

theorem hasPragmaOnce_cons_match {t : Line} {rest : List Line}
    (h : matchPragmaOnce t = true) : hasPragmaOnce (t :: rest) = true := by
  unfold hasPragmaOnce
  obtain ⟨f, hf⟩ : ∃ f, min 50 (t :: rest).length = f + 1 :=
    ⟨min 50 (t :: rest).length - 1, by rw [List.length_cons]; omega⟩
  rw [hf]
  unfold hasPragmaOnceAux
  have h0 : lineAt (t :: rest) 0 = t := rfl
  rw [h0, h]
  rfl

theorem hasPragmaOnce_cons_subst {t : Line} {rest : List Line}
    (h1 : matchPragmaOnce t = false) (h2 : substantive t = true) :
    hasPragmaOnce (t :: rest) = false := by
  unfold hasPragmaOnce
  obtain ⟨f, hf⟩ : ∃ f, min 50 (t :: rest).length = f + 1 :=
    ⟨min 50 (t :: rest).length - 1, by rw [List.length_cons]; omega⟩
  rw [hf]
  unfold hasPragmaOnceAux
  have h0 : lineAt (t :: rest) 0 = t := rfl
  rw [h0, h1, h2]
  rfl

/-! ### The freshly inserted guard block is recognized as a classic guard -/

theorem hasPragmaOnce_guardWrapped (mac : Line) (X : List Line) :
    hasPragmaOnce (guardHeaderLines mac ++ X ++ guardFooterLines mac) = false := by
  have hsh : guardHeaderLines mac ++ X ++ guardFooterLines mac =
      ifndefLineTxt mac :: (defineLineTxt mac :: ([] : Line) ::
        (X ++ guardFooterLines mac)) := by
    simp [guardHeaderLines]
  rw [hsh]
  exact hasPragmaOnce_cons_subst (matchPragmaOnce_ifndefLine mac)
    (substantive_cons (by decide) (by decide))

theorem length_guardWrapped (mac : Line) (X : List Line) :
    (guardHeaderLines mac ++ X ++ guardFooterLines mac).length = X.length + 5 := by
  simp [guardHeaderLines, guardFooterLines]

theorem extract_guardWrapped {mac : Line} (hne : mac ≠ [])
    (hall : mac.all isMacroChar = true) (X : List Line) :
    extractGuardMacro (guardHeaderLines mac ++ X ++ guardFooterLines mac) =
      some ⟨mac, 0, 1, X.length + 3⟩ := by
  have hlen := length_guardWrapped mac X
  have h0 : lineAt (guardHeaderLines mac ++ X ++ guardFooterLines mac) 0 =
      ifndefLineTxt mac := rfl
  have h1 : lineAt (guardHeaderLines mac ++ X ++ guardFooterLines mac) 1 =
      defineLineTxt mac := rfl
  have hAlen : (guardHeaderLines mac ++ X).length = X.length + 3 := by
    simp [guardHeaderLines]
  have hend0 : lineAt (guardHeaderLines mac ++ X ++ guardFooterLines mac)
      (X.length + 3) = endifLineTxt mac := by
    rw [show X.length + 3 = (guardHeaderLines mac ++ X).length + 0 by
      rw [hAlen], lineAt_append_right]
    rfl
  have hend1 : lineAt (guardHeaderLines mac ++ X ++ guardFooterLines mac)
      (X.length + 4) = [] := by
    rw [show X.length + 4 = (guardHeaderLines mac ++ X).length + 1 by
      rw [hAlen], lineAt_append_right]
    rfl
  have hfi : findFirstIdx
      (fun i => (matchIfndef (lineAt (guardHeaderLines mac ++ X ++ guardFooterLines mac) i)).isSome)
      0 (min 60 (guardHeaderLines mac ++ X ++ guardFooterLines mac).length) = some 0 := by
    rw [findFirstIdx_eq_some_iff]
    refine ⟨Nat.le_refl _, by rw [hlen]; omega, ?_, fun j h1 h2 => by omega⟩
    rw [h0, matchIfndef_ifndefLine hne hall]
    rfl
  have hfd : findFirstIdx
      (fun j => matchDefine mac (lineAt (guardHeaderLines mac ++ X ++ guardFooterLines mac) j))
      (0 + 1) (min (0 + 6) (min 60 (guardHeaderLines mac ++ X ++ guardFooterLines mac).length) - (0 + 1)) =
      some 1 := by
    rw [findFirstIdx_eq_some_iff]
    refine ⟨Nat.le_refl _, by rw [hlen]; omega, ?_, fun j h1 h2 => by omega⟩
    rw [h1]
    exact matchDefine_defineLine hne hall
  have hhp : findHeaderPair (guardHeaderLines mac ++ X ++ guardFooterLines mac) =
      some (0, mac, 1) := by
    unfold findHeaderPair
    rw [hfi]
    simp only
    rw [h0, matchIfndef_ifndefLine hne hall]
    simp only
    rw [hfd]
  have hfe : findEndif (guardHeaderLines mac ++ X ++ guardFooterLines mac) mac =
      some (X.length + 3) := by
    unfold findEndif
    have : findLastIdx
        (fun k => matchEndifMacro mac (lineAt (guardHeaderLines mac ++ X ++ guardFooterLines mac) k))
        (guardHeaderLines mac ++ X ++ guardFooterLines mac).length = some (X.length + 3) := by
      rw [findLastIdx_eq_some_iff]
      refine ⟨by rw [hlen]; omega, ?_, fun j hj1 hj2 => ?_⟩
      · rw [hend0]
        exact matchEndifMacro_endifLine hne
      · rw [hlen] at hj2
        have : j = X.length + 4 := by omega
        subst this
        rw [hend1]
        exact matchEndifMacro_nil mac
    rw [this]
  unfold extractGuardMacro
  rw [hhp]
  simp only
  rw [hfe]

theorem kindOf_guardWrapped {mac : Line} (hne : mac ≠ [])
    (hall : mac.all isMacroChar = true) (X : List Line) :
    kindOf (guardHeaderLines mac ++ X ++ guardFooterLines mac) =
      ProtectionKind.guard := by
  unfold kindOf
  rw [hasPragmaOnce_guardWrapped, extract_guardWrapped hne hall]
  rfl

theorem kindOf_pragmaHead (rest : List Line) :
    kindOf (pragmaLineTxt :: rest) = ProtectionKind.pragmaOnce := by
  unfold kindOf
  rw [hasPragmaOnce_cons_match (by decide)]
  rfl

/-! ### Properties of the macro namer -/

theorem char_toNat_ofNat {n : Nat} (h : n < 55296) : (Char.ofNat n).toNat = n := by
  have hv : n.isValidChar := Or.inl h
  rw [Char.ofNat, dif_pos hv]
  simp [Char.ofNatAux, Char.toNat, UInt32.toNat]

theorem replace_upper_comm (c : Char) :
    (if isUpperDigit (jsUpperAscii c) then jsUpperAscii c else '_') =
      jsUpperAscii (if isAsciiAlnum c then c else '_') := by
  by_cases hl : isLowerAlpha c = true
  · have ht : 97 ≤ c.toNat ∧ c.toNat ≤ 122 := by
      simpa [isLowerAlpha] using hl
    have hup : jsUpperAscii c = Char.ofNat (c.toNat - 32) := by
      simp [jsUpperAscii, hl]
    have htn : (Char.ofNat (c.toNat - 32)).toNat = c.toNat - 32 :=
      char_toNat_ofNat (by omega)
    have hud : isUpperDigit (jsUpperAscii c) = true := by
      rw [hup]
      simp only [isUpperDigit, htn, Bool.or_eq_true, decide_eq_true_eq]
      omega
    have hai : isAsciiAlnum c = true := by simp [isAsciiAlnum, hl]
    rw [hud, hai]
    simp
  · have hup : jsUpperAscii c = c := by simp [jsUpperAscii, hl]
    by_cases hd : isUpperDigit c = true
    · have hai : isAsciiAlnum c = true := by simp [isAsciiAlnum, hd]
      rw [hup, hd, hai]
      simp [hup]
    · have hai : isAsciiAlnum c = false := by
        simp only [isAsciiAlnum, Bool.or_eq_false_iff]
        constructor
        · simpa using hd
        · simpa using hl
      rw [hup]
      simp only [hd, Bool.false_eq_true, if_false, hai]
      decide

theorem isMacroChar_replaced (c : Char) :
    isMacroChar (if isUpperDigit c then c else '_') = true := by
  by_cases h : isUpperDigit c = true
  · simp [h, isMacroChar]
  · simp only [h, Bool.false_eq_true, if_false]
    decide

theorem guardSuffixOk_nil : guardSuffixOk [] = false := rfl

theorem computeMacro_eq_spec (rel : Line) : computeMacro rel = computeMacroSpec rel := by
  unfold computeMacro computeMacroSpec
  have hm : (rel.map jsUpperAscii).map (fun c => if isUpperDigit c then c else '_') =
      (rel.map (fun c => if isAsciiAlnum c then c else '_')).map jsUpperAscii := by
    rw [List.map_map, List.map_map]
    exact List.map_congr_left (fun c _ => replace_upper_comm c)
  rw [hm]

theorem computeMacro_all (rel : Line) :
    (computeMacro rel).all isMacroChar = true := by
  unfold computeMacro
  have hall : ((rel.map jsUpperAscii).map (fun c => if isUpperDigit c then c else '_')).all
      isMacroChar = true := by
    rw [List.all_eq_true]
    intro x hx
    rw [List.mem_map] at hx
    obtain ⟨y, -, rfl⟩ := hx
    exact isMacroChar_replaced y
  by_cases h : guardSuffixOk ((rel.map jsUpperAscii).map fun c => if isUpperDigit c then c else '_')
  · rw [if_pos h]
    exact hall
  · rw [if_neg h, List.all_append, hall]
    decide

theorem computeMacro_ne_nil (rel : Line) : computeMacro rel ≠ [] := by
  unfold computeMacro
  by_cases h : guardSuffixOk ((rel.map jsUpperAscii).map fun c => if isUpperDigit c then c else '_')
  · rw [if_pos h]
    intro hnil
    rw [hnil] at h
    rw [guardSuffixOk_nil] at h
    exact absurd h (by decide)
  · rw [if_neg h]
    simp

theorem computeMacro_suffixOk (rel : Line) :
    guardSuffixOk (computeMacro rel) = true := by
  unfold computeMacro
  by_cases h : guardSuffixOk ((rel.map jsUpperAscii).map fun c => if isUpperDigit c then c else '_')
  · rw [if_pos h]
    exact h
  · rw [if_neg h]
    unfold guardSuffixOk
    rw [List.reverse_append]
    simp [startsWithL]

/-! ### The toggle pragma-removal scan and the staged deletions -/

theorem commentOrBlank_eq (t : Line) : commentOrBlank t = !substantive t := by
  unfold commentOrBlank substantive
  cases h1 : (trimL t).isEmpty <;> cases h2 : startsWithL ['/', '/'] (trimL t) <;>
    cases h3 : startsWithL ['/', '*'] (trimL t) <;> simp

theorem pragmaClearIdx_finds {doc : List Line} {i : Nat}
    (hm : matchPragmaOnce (lineAt doc i) = true) :
    ∀ fuel st, st ≤ i → i < st + fuel →
      (∀ k, st ≤ k → k < i → (trimL (lineAt doc k)).isEmpty = true) →
      pragmaClearIdx doc st fuel =
        some (i, decide (i + 1 < doc.length) && (trimL (lineAt doc (i + 1))).isEmpty) := by
  intro fuel
  induction fuel with
  | zero => intro st h1 h2 h3; omega
  | succ f ih =>
    intro st h1 h2 h3
    unfold pragmaClearIdx
    rcases Nat.eq_or_lt_of_le h1 with rfl | h4
    · rw [hm]
      simp
    · have hblank := h3 st (Nat.le_refl _) h4
      rw [matchPragmaOnce_of_trim_nil hblank, hblank]
      simp only [Bool.false_eq_true, if_false, Bool.not_true]
      exact ih (st + 1) (by omega) (by omega) (fun k hk1 hk2 => h3 k (by omega) hk2)

theorem clearPragma_of_found {doc : List Line} {i : Nat}
    (hm : matchPragmaOnce (lineAt doc i) = true)
    (hlt : i < min 50 doc.length)
    (h3 : ∀ k, k < i → (trimL (lineAt doc k)).isEmpty = true) :
    clearPragma doc = (List.range doc.length).map fun k =>
      if k == i || ((decide (i + 1 < doc.length) && (trimL (lineAt doc (i + 1))).isEmpty)
          && k == i + 1) then [] else lineAt doc k := by
  unfold clearPragma
  rw [pragmaClearIdx_finds hm (min 50 doc.length) 0 (by omega) (by omega)
    (fun k _ hk2 => h3 k hk2)]

theorem lineAt_clearPragma_at {doc : List Line} {i : Nat}
    (hm : matchPragmaOnce (lineAt doc i) = true)
    (hlt : i < min 50 doc.length)
    (h3 : ∀ k, k < i → (trimL (lineAt doc k)).isEmpty = true) :
    lineAt (clearPragma doc) i = [] := by
  rw [clearPragma_of_found hm hlt h3]
  unfold lineAt
  rw [List.getD_eq_getElem?_getD, List.getElem?_map,
    List.getElem?_range (by omega)]
  simp

theorem removeGuardLines_eq_spec (g : GuardInfo) (lines : List Line) :
    removeGuardLines g lines = (List.range lines.length).filterMap fun i =>
      if g.ifndefLine ≤ i ∧ i ≤ g.defineLine then none
      else if i = g.endifLine then some [] else lines[i]? := by
  unfold removeGuardLines
  apply List.filterMap_congr
  intro i hi
  rw [List.mem_range] at hi
  by_cases h1 : g.ifndefLine ≤ i ∧ i ≤ g.defineLine
  · rw [if_pos h1, if_pos]
    simp only [Bool.and_eq_true, decide_eq_true_eq]
    omega
  · rw [if_neg h1, if_neg]
    · by_cases h2 : i = g.endifLine
      · rw [if_pos h2, if_pos (by simpa using h2)]
      · rw [if_neg h2, if_neg (by simpa using h2)]
        unfold lineAt
        rw [List.getD_eq_getElem?_getD, List.getElem?_eq_getElem hi]
        rfl
    · simp only [Bool.and_eq_true, decide_eq_true_eq]
      omega

/-! ### The claims -/

/-- C1: for every eligible document (header extension) in which `hasPragmaOnce`
is false and `extractGuard` returns not-found, running InsertGuard and then
`extractGuard` on the resulting document returns a `GuardInfo` whose macro
field equals `computeMacro` applied to the document's path. -/
theorem claim1_insert_then_extract (d : TextDocument)
    (h1 : isHeader d = true) (h2 : hasPragmaOnce d.lines = false)
    (h3 : extractGuardMacro d.lines = none) :
    ∃ L g, insertGuard d = OpOutcome.ok L ∧ extractGuardMacro L = some g ∧
      g.mac = computeMacro d.rel := by
  have hok : insertGuard d = OpOutcome.ok (guardHeaderLines (computeMacro d.rel)
      ++ d.lines ++ guardFooterLines (computeMacro d.rel)) := by
    unfold insertGuard
    rw [h1, h2, h3]
    rfl
  exact ⟨_, _, hok,
    extract_guardWrapped (computeMacro_ne_nil d.rel) (computeMacro_all d.rel) d.lines,
    rfl⟩

/-- Witness for C1 at the concrete empty `math.h` document. -/
theorem claim1_witness :
    ∃ L g, insertGuard docEmptyH = OpOutcome.ok L ∧ extractGuardMacro L = some g ∧
      g.mac = computeMacro docEmptyH.rel :=
  claim1_insert_then_extract docEmptyH (by decide) (by decide) (by decide)

/-- C2: a failing operation applies no edit.  When the extension is not in the
allow-list, all three operations report `NotAHeader`; InsertGuard reports
`AlreadyProtected` when `hasPragmaOnce` holds or `extractGuard` succeeds, and
UsePragmaOnce reports `AlreadyProtected` when `hasPragmaOnce` holds; in every
such case the document content is unchanged. -/
theorem claim2_failure_paths (d : TextDocument) :
    (isHeader d = false →
      insertGuard d = OpOutcome.notAHeader ∧ usePragmaOnce d = OpOutcome.notAHeader ∧
      toggle d = OpOutcome.notAHeader ∧
      resultLines d (insertGuard d) = d.lines ∧
      resultLines d (usePragmaOnce d) = d.lines ∧
      resultLines d (toggle d) = d.lines) ∧
    (isHeader d = true →
      (hasPragmaOnce d.lines = true ∨ (extractGuardMacro d.lines).isSome = true) →
      insertGuard d = OpOutcome.alreadyProtected ∧
      resultLines d (insertGuard d) = d.lines) ∧
    (isHeader d = true → hasPragmaOnce d.lines = true →
      usePragmaOnce d = OpOutcome.alreadyProtected ∧
      resultLines d (usePragmaOnce d) = d.lines) := by
  refine ⟨?_, ?_, ?_⟩
  · intro h
    have e1 : insertGuard d = OpOutcome.notAHeader := by
      unfold insertGuard; rw [h]; rfl
    have e2 : usePragmaOnce d = OpOutcome.notAHeader := by
      unfold usePragmaOnce; rw [h]; rfl
    have e3 : toggle d = OpOutcome.notAHeader := by
      unfold toggle; rw [h]; rfl
    exact ⟨e1, e2, e3, by rw [e1]; rfl, by rw [e2]; rfl, by rw [e3]; rfl⟩
  · intro h hp
    have e : insertGuard d = OpOutcome.alreadyProtected := by
      unfold insertGuard
      rw [h]
      rcases hp with hp | hp
      · rw [hp]
        rfl
      · rw [hp, Bool.or_true]
        rfl
    exact ⟨e, by rw [e]; rfl⟩
  · intro h hp
    have e : usePragmaOnce d = OpOutcome.alreadyProtected := by
      unfold usePragmaOnce; rw [h, hp]; rfl
    exact ⟨e, by rw [e]; rfl⟩

/-- Witness for C2 at the concrete non-header `notes.txt` document. -/
theorem claim2_witness :
    insertGuard docTxt = OpOutcome.notAHeader ∧
    resultLines docTxt (insertGuard docTxt) = docTxt.lines := by
  have h := (claim2_failure_paths docTxt).1 (by decide)
  exact ⟨h.1, h.2.2.2.1⟩

/-- C3: `hasPragmaOnce` returns true exactly when some line `i` below
`min(50, lineCount)` matches the pragma pattern and every line before `i`
trims to empty or starts with `//` or `/*`. -/
theorem claim3_hasPragmaOnce_iff (doc : List Line) :
    hasPragmaOnce doc = true ↔
      ∃ i, i < min 50 doc.length ∧ matchPragmaOnce (lineAt doc i) = true ∧
        ∀ k, k < i → commentOrBlank (lineAt doc k) = true := by
  unfold hasPragmaOnce
  rw [hasPragmaOnceAux_iff]
  constructor
  · rintro ⟨k, h1, h2, h3, h4⟩
    refine ⟨k, by omega, h3, fun j hj => ?_⟩
    rw [commentOrBlank_eq, h4 j (by omega) hj]
    rfl
  · rintro ⟨i, h1, h2, h3⟩
    refine ⟨i, by omega, by omega, h2, fun j hj1 hj2 => ?_⟩
    have hcb := h3 j hj2
    rw [commentOrBlank_eq] at hcb
    cases hsub : substantive (lineAt doc j)
    · rfl
    · rw [hsub] at hcb
      exact absurd hcb (by decide)

/-- Witness for C3 at the concrete comment-then-pragma document. -/
theorem claim3_witness :
    hasPragmaOnce commentPragmaLines = true ↔
      ∃ i, i < min 50 commentPragmaLines.length ∧
        matchPragmaOnce (lineAt commentPragmaLines i) = true ∧
        ∀ k, k < i → commentOrBlank (lineAt commentPragmaLines k) = true :=
  claim3_hasPragmaOnce_iff commentPragmaLines

/-- C6: `computeMacro` agrees with the claim's description (replace characters
outside `[A-Za-z0-9]` by `_`, uppercase, append `_H` unless an accepted suffix
is already present), and its result is always a valid `MacroName` (non-empty
over `[A-Z0-9_]`) ending in one of the four accepted suffixes. -/
theorem claim6_computeMacro (rel : Line) (_h : rel ≠ []) :
    computeMacro rel = computeMacroSpec rel ∧
    isValidMacroName (computeMacro rel) = true ∧
    guardSuffixOk (computeMacro rel) = true := by
  refine ⟨computeMacro_eq_spec rel, ?_, computeMacro_suffixOk rel⟩
  unfold isValidMacroName
  rw [computeMacro_all]
  have hne := computeMacro_ne_nil rel
  cases hx : computeMacro rel
  · exact absurd hx hne
  · rfl

/-- Witness for C6 at the concrete path `math.h`. -/
theorem claim6_witness :
    computeMacro pathMathH = computeMacroSpec pathMathH ∧
    isValidMacroName (computeMacro pathMathH) = true ∧
    guardSuffixOk (computeMacro pathMathH) = true :=
  claim6_computeMacro pathMathH (by decide)

/-- C10: there is a document on which `extractGuard` succeeds with an
`endifLine` strictly below `ifndefLine`: the bottom-up `#endif` search imposes
no ordering constraint against the header pair. -/
theorem claim10_reversed_endif :
    ∃ doc g, extractGuardMacro doc = some g ∧ g.endifLine < g.ifndefLine :=
  ⟨reversedEndifLines, ⟨fooHMac, 1, 2, 0⟩, by decide, by decide⟩

/-! ### Header-pair characterization helpers for C4 and C5 -/

theorem findHeaderPair_some_props {doc : List Line} {i : Nat} {mac : Line} {j : Nat}
    (h : findHeaderPair doc = some (i, mac, j)) :
    i < min 60 doc.length ∧ matchIfndef (lineAt doc i) = some mac ∧
    (∀ k, k < i → matchIfndef (lineAt doc k) = none) ∧
    i < j ∧ j < min (i + 6) (min 60 doc.length) ∧
    matchDefine mac (lineAt doc j) = true := by
  unfold findHeaderPair at h
  rcases hfi : findFirstIdx (fun k => (matchIfndef (lineAt doc k)).isSome) 0
      (min 60 doc.length) with _ | i0
  · simp only [hfi] at h
    exact absurd h (by simp)
  · simp only [hfi] at h
    rcases hmi : matchIfndef (lineAt doc i0) with _ | mac0
    · simp only [hmi] at h
      exact absurd h (by simp)
    · simp only [hmi] at h
      rcases hfd : findFirstIdx (fun k => matchDefine mac0 (lineAt doc k)) (i0 + 1)
          (min (i0 + 6) (min 60 doc.length) - (i0 + 1)) with _ | j0
      · simp only [hfd] at h
        exact absurd h (by simp)
      · simp only [hfd] at h
        simp only [Option.some.injEq, Prod.mk.injEq] at h
        obtain ⟨rfl, rfl, rfl⟩ := h
        rw [findFirstIdx_eq_some_iff] at hfi hfd
        obtain ⟨-, hi2, -, hi4⟩ := hfi
        obtain ⟨hj1, hj2, hj3, -⟩ := hfd
        refine ⟨by omega, hmi, ?_, by omega, by omega, hj3⟩
        intro k hk
        have hx := hi4 k (by omega) hk
        rcases hy : matchIfndef (lineAt doc k) with _ | v
        · rfl
        · rw [hy] at hx
          exact absurd hx (by simp)

theorem findHeaderPair_none_of_no_define {doc : List Line} {i : Nat} {mac : Line}
    (h1 : i < min 60 doc.length)
    (h2 : matchIfndef (lineAt doc i) = some mac)
    (h3 : ∀ k, k < i → matchIfndef (lineAt doc k) = none)
    (h4 : ∀ j, i < j → j < min (i + 6) (min 60 doc.length) →
      matchDefine mac (lineAt doc j) = false) :
    findHeaderPair doc = none := by
  unfold findHeaderPair
  have hfi : findFirstIdx (fun k => (matchIfndef (lineAt doc k)).isSome) 0
      (min 60 doc.length) = some i := by
    rw [findFirstIdx_eq_some_iff]
    refine ⟨Nat.zero_le _, by omega, by rw [h2]; rfl, fun j hj1 hj2 => by rw [h3 j hj2]; rfl⟩
  simp only [hfi, h2]
  have hfd : findFirstIdx (fun k => matchDefine mac (lineAt doc k)) (i + 1)
      (min (i + 6) (min 60 doc.length) - (i + 1)) = none := by
    rw [findFirstIdx_eq_none_iff]
    intro j hj1 hj2
    exact h4 j (by omega) (by omega)
  simp only [hfd]

theorem extractGuardMacro_none_of_pair_none {doc : List Line}
    (h : findHeaderPair doc = none) : extractGuardMacro doc = none := by
  unfold extractGuardMacro
  rw [h]

/-- C4: whenever `extractGuard` succeeds, `ifndefLine` is the first line in the
`min(60, lineCount)` window matching the `#ifndef` pattern, `defineLine` holds
a `#define` of the identical macro, and
`ifndefLine < defineLine ≤ ifndefLine + 5` (also within the window); and if
the first `#ifndef` has no matching `#define` in that look-ahead, extraction
fails without considering any later `#ifndef`. -/
theorem claim4_header_pair (doc : List Line) :
    (∀ g, extractGuardMacro doc = some g →
      g.ifndefLine < min 60 doc.length ∧
      matchIfndef (lineAt doc g.ifndefLine) = some g.mac ∧
      (∀ j, j < g.ifndefLine → matchIfndef (lineAt doc j) = none) ∧
      matchDefine g.mac (lineAt doc g.defineLine) = true ∧
      g.ifndefLine < g.defineLine ∧ g.defineLine ≤ g.ifndefLine + 5 ∧
      g.defineLine < min 60 doc.length) ∧
    (∀ i mac, i < min 60 doc.length →
      matchIfndef (lineAt doc i) = some mac →
      (∀ j, j < i → matchIfndef (lineAt doc j) = none) →
      (∀ j, i < j → j < min (i + 6) (min 60 doc.length) →
        matchDefine mac (lineAt doc j) = false) →
      extractGuardMacro doc = none) := by
  constructor
  · intro g hg
    unfold extractGuardMacro at hg
    rcases hfp : findHeaderPair doc with _ | ⟨i, mac, j⟩
    · simp only [hfp] at hg
      exact absurd hg (by simp)
    · simp only [hfp] at hg
      rcases hfe : findEndif doc mac with _ | k
      · simp only [hfe] at hg
        exact absurd hg (by simp)
      · simp only [hfe] at hg
        simp only [Option.some.injEq] at hg
        subst hg
        obtain ⟨p1, p2, p3, p4, p5, p6⟩ := findHeaderPair_some_props hfp
        dsimp only
        exact ⟨p1, p2, p3, p6, p4, by omega, by omega⟩
  · intro i mac h1 h2 h3 h4
    exact extractGuardMacro_none_of_pair_none
      (findHeaderPair_none_of_no_define h1 h2 h3 h4)

/-- Witness for C4 at the concrete lone-`#ifndef` document. -/
theorem claim4_witness : extractGuardMacro loneIfndefLines = none :=
  (claim4_header_pair loneIfndefLines).2 0 ['F', 'O', 'O'] (by decide) (by decide)
    (by intro j hj; omega)
    (by
      intro j hj1 hj2
      have : j = 1 := by
        simp only [loneIfndefLines, List.length_cons, List.length_nil] at hj2
        omega
      subst this
      decide)

/-- C5: once a valid `#ifndef`/`#define` pair with macro `mac` is found, the
returned `endifLine` is the largest line index matching the annotated
`#endif ... mac` pattern; when no line matches it, the largest index matching
the bare `#endif` pattern; and when no bare `#endif` exists at all, extraction
returns not-found. -/
theorem claim5_endif_selection (doc : List Line) (i : Nat) (mac : Line) (j : Nat)
    (hh : findHeaderPair doc = some (i, mac, j)) :
    (∀ g, extractGuardMacro doc = some g →
      g.mac = mac ∧ g.ifndefLine = i ∧ g.defineLine = j ∧
      ((g.endifLine < doc.length ∧
        matchEndifMacro mac (lineAt doc g.endifLine) = true ∧
        ∀ k, g.endifLine < k → k < doc.length →
          matchEndifMacro mac (lineAt doc k) = false)
       ∨ ((∀ k, k < doc.length → matchEndifMacro mac (lineAt doc k) = false) ∧
          g.endifLine < doc.length ∧
          matchEndifBare (lineAt doc g.endifLine) = true ∧
          ∀ k, g.endifLine < k → k < doc.length →
            matchEndifBare (lineAt doc k) = false))) ∧
    ((∀ k, k < doc.length → matchEndifBare (lineAt doc k) = false) →
      extractGuardMacro doc = none) := by
  constructor
  · intro g hg
    unfold extractGuardMacro at hg
    simp only [hh] at hg
    unfold findEndif at hg
    rcases hfa : findLastIdx (fun k => matchEndifMacro mac (lineAt doc k))
        doc.length with _ | k
    · simp only [hfa] at hg
      rcases hfb : findLastIdx (fun k => matchEndifBare (lineAt doc k))
          doc.length with _ | k2
      · simp only [hfb] at hg
        exact absurd hg (by simp)
      · simp only [hfb] at hg
        simp only [Option.some.injEq] at hg
        subst hg
        rw [findLastIdx_eq_none_iff] at hfa
        rw [findLastIdx_eq_some_iff] at hfb
        obtain ⟨hb1, hb2, hb3⟩ := hfb
        exact ⟨rfl, rfl, rfl, Or.inr ⟨fun k hk => hfa k hk, hb1, hb2, hb3⟩⟩
    · simp only [hfa] at hg
      simp only [Option.some.injEq] at hg
      subst hg
      rw [findLastIdx_eq_some_iff] at hfa
      obtain ⟨ha1, ha2, ha3⟩ := hfa
      exact ⟨rfl, rfl, rfl, Or.inl ⟨ha1, ha2, ha3⟩⟩
  · intro hb
    have hnoannot : ∀ k, k < doc.length → matchEndifMacro mac (lineAt doc k) = false := by
      intro k hk
      cases hx : matchEndifMacro mac (lineAt doc k)
      · rfl
      · exfalso
        have hbare : matchEndifBare (lineAt doc k) = true := by
          unfold matchEndifMacro at hx
          unfold matchEndifBare
          rcases ht : matchEndifTail (lineAt doc k) with _ | r
          · simp only [ht] at hx
            exact absurd hx (by decide)
          · rfl
        rw [hb k hk] at hbare
        exact absurd hbare (by decide)
    unfold extractGuardMacro
    simp only [hh]
    have hfe : findEndif doc mac = none := by
      unfold findEndif
      simp only [findLastIdx_eq_none_iff.mpr hnoannot,
        findLastIdx_eq_none_iff.mpr (fun k hk => hb k hk)]
    simp only [hfe]

/-- Witness for C5 at the concrete classic-guard document. -/
theorem claim5_witness :
    (∀ g, extractGuardMacro classicGuardLines = some g →
      g.mac = fooHMac ∧ g.ifndefLine = 0 ∧ g.defineLine = 1 ∧
      ((g.endifLine < classicGuardLines.length ∧
        matchEndifMacro fooHMac (lineAt classicGuardLines g.endifLine) = true ∧
        ∀ k, g.endifLine < k → k < classicGuardLines.length →
          matchEndifMacro fooHMac (lineAt classicGuardLines k) = false)
       ∨ ((∀ k, k < classicGuardLines.length →
            matchEndifMacro fooHMac (lineAt classicGuardLines k) = false) ∧
          g.endifLine < classicGuardLines.length ∧
          matchEndifBare (lineAt classicGuardLines g.endifLine) = true ∧
          ∀ k, g.endifLine < k → k < classicGuardLines.length →
            matchEndifBare (lineAt classicGuardLines k) = false))) ∧
    ((∀ k, k < classicGuardLines.length →
        matchEndifBare (lineAt classicGuardLines k) = false) →
      extractGuardMacro classicGuardLines = none) :=
  claim5_endif_selection classicGuardLines 0 fooHMac 1 (by decide)

/-- Counterexample to C7 as stated: on a concrete eligible guarded document,
`usePragmaOnce` does not produce the document with the `#endif` line removed
(`specConvertedRemove`); the `#endif` line's text is only deleted, so an empty
line remains. -/
theorem claim7_counterexample :
    isHeader docBareGuard = true ∧ hasPragmaOnce docBareGuard.lines = false ∧
    extractGuardMacro docBareGuard.lines = some bareGuardInfo ∧
    usePragmaOnce docBareGuard ≠
      OpOutcome.ok (specConvertedRemove bareGuardInfo docBareGuard.lines) := by
  decide

/-- C7 (amended): for every eligible document with `hasPragmaOnce` false where
`extractGuard` returns `g`, UsePragmaOnce produces the document obtained by
inserting `#pragma once` and a blank line at the start, deleting the header
span from `g.ifndefLine` through `g.defineLine` inclusive, and deleting the
text of the `#endif` line at `g.endifLine` (an empty line remains there), all
as one atomic edit. -/
theorem claim7_amended (d : TextDocument) (g : GuardInfo)
    (h1 : isHeader d = true) (h2 : hasPragmaOnce d.lines = false)
    (h3 : extractGuardMacro d.lines = some g) :
    usePragmaOnce d = OpOutcome.ok (specConvertedClear g d.lines) := by
  have hok : usePragmaOnce d = OpOutcome.ok (pragmaHeaderLines ++ removeGuardLines g d.lines) := by
    unfold usePragmaOnce
    rw [h1, h2]
    simp only [h3]
    rfl
  rw [hok, removeGuardLines_eq_spec]
  rfl

/-- Witness for the amended C7 at the concrete bare-`#endif` guard document. -/
theorem claim7_witness :
    usePragmaOnce docBareGuard =
      OpOutcome.ok (specConvertedClear bareGuardInfo docBareGuard.lines) :=
  claim7_amended docBareGuard bareGuardInfo (by decide) (by decide) (by decide)

/-- Counterexample to C8 as stated: with a `//` comment line before
`#pragma once`, `hasPragmaOnce` is true (its scan skips comments) but Toggle's
removal scan stops at the comment, deletes nothing, and the inserted-guard
result still contains the pragma directive. -/
theorem claim8_counterexample :
    hasPragmaOnce docCommentPragma.lines = true ∧
    toggle docCommentPragma = OpOutcome.ok
      (guardHeaderLines (computeMacro docCommentPragma.rel) ++ docCommentPragma.lines
        ++ guardFooterLines (computeMacro docCommentPragma.rel)) ∧
    (resultLines docCommentPragma (toggle docCommentPragma)).any matchPragmaOnce = true := by
  decide

/-- C8 (amended): Toggle's pragma-removal scan stops at the first line whose
trimmed text is non-empty (comment lines included), unlike `hasPragmaOnce`
which skips comment lines; consequently, when the pragma line is preceded only
by lines that trim to empty, Toggle deletes the located directive's text (the
line at the pragma's index is empty in the cleared document) before inserting
the fresh guard header and footer as one atomic edit. -/
theorem claim8_amended (d : TextDocument) (i : Nat)
    (h1 : isHeader d = true)
    (h2 : i < min 50 d.lines.length)
    (h3 : matchPragmaOnce (lineAt d.lines i) = true)
    (h4 : ∀ k, k < i → (trimL (lineAt d.lines k)).isEmpty = true) :
    hasPragmaOnce d.lines = true ∧
    toggle d = OpOutcome.ok (guardHeaderLines (computeMacro d.rel) ++ clearPragma d.lines
      ++ guardFooterLines (computeMacro d.rel)) ∧
    lineAt (clearPragma d.lines) i = [] := by
  have hp : hasPragmaOnce d.lines = true := by
    unfold hasPragmaOnce
    rw [hasPragmaOnceAux_iff]
    exact ⟨i, by omega, by omega, h3,
      fun j hj1 hj2 => substantive_of_trim_nil (h4 j hj2)⟩
  refine ⟨hp, ?_, lineAt_clearPragma_at h3 h2 h4⟩
  unfold toggle
  rw [h1, hp]
  rfl

/-- Witness for the amended C8 at the concrete blank-then-pragma document. -/
theorem claim8_witness :
    hasPragmaOnce docBlankPragma.lines = true ∧
    toggle docBlankPragma = OpOutcome.ok
      (guardHeaderLines (computeMacro docBlankPragma.rel) ++ clearPragma docBlankPragma.lines
        ++ guardFooterLines (computeMacro docBlankPragma.rel)) ∧
    lineAt (clearPragma docBlankPragma.lines) 1 = [] :=
  claim8_amended docBlankPragma 1 (by decide) (by decide) (by decide)
    (by
      intro k hk
      have hzero : k = 0 := by omega
      subst hzero
      decide)

theorem toggleDoc_lines (d : TextDocument) :
    (toggleDoc d).lines = resultLines d (toggle d) := rfl

/-- Counterexample to C9 as stated: on a concrete eligible document with no
protection, two Toggles end at `PragmaOnce` (`None → Guard → PragmaOnce`), not
back at `None`. -/
theorem claim9_counterexample :
    isHeader docEmptyH = true ∧ kindOf docEmptyH.lines = ProtectionKind.noProt ∧
    kindOf (toggleDoc (toggleDoc docEmptyH)).lines ≠ kindOf docEmptyH.lines := by
  decide

/-- C9 (amended): for every eligible document whose protection kind is
`PragmaOnce` or `Guard`, applying Toggle twice restores the protection kind;
a document of kind `None` instead ends at `PragmaOnce` (see the
counterexample), following the state machine
`None → Guard → PragmaOnce → Guard → …`. -/
theorem claim9_amended (d : TextDocument) (h1 : isHeader d = true)
    (h2 : kindOf d.lines ≠ ProtectionKind.noProt) :
    kindOf (toggleDoc (toggleDoc d)).lines = kindOf d.lines := by
  by_cases hp : hasPragmaOnce d.lines = true
  · have hk0 : kindOf d.lines = ProtectionKind.pragmaOnce := by
      unfold kindOf
      rw [hp]
      rfl
    have ht1 : toggle d = OpOutcome.ok (guardHeaderLines (computeMacro d.rel)
        ++ clearPragma d.lines ++ guardFooterLines (computeMacro d.rel)) := by
      unfold toggle
      rw [h1, hp]
      rfl
    have hl1 : (toggleDoc d).lines = guardHeaderLines (computeMacro d.rel)
        ++ clearPragma d.lines ++ guardFooterLines (computeMacro d.rel) := by
      rw [toggleDoc_lines, ht1]
      rfl
    have hh1 : isHeader (toggleDoc d) = true := h1
    have hp2 : hasPragmaOnce (toggleDoc d).lines = false := by
      rw [hl1]
      exact hasPragmaOnce_guardWrapped _ _
    have hex2 : extractGuardMacro (toggleDoc d).lines =
        some ⟨computeMacro d.rel, 0, 1, (clearPragma d.lines).length + 3⟩ := by
      rw [hl1]
      exact extract_guardWrapped (computeMacro_ne_nil d.rel) (computeMacro_all d.rel) _
    have ht2 : toggle (toggleDoc d) = OpOutcome.ok (pragmaHeaderLines ++
        removeGuardLines ⟨computeMacro d.rel, 0, 1, (clearPragma d.lines).length + 3⟩
          (toggleDoc d).lines) := by
      unfold toggle
      rw [hh1, hp2]
      simp only [hex2]
      rfl
    have hl2 : (toggleDoc (toggleDoc d)).lines = pragmaLineTxt :: ([] : Line) ::
        removeGuardLines ⟨computeMacro d.rel, 0, 1, (clearPragma d.lines).length + 3⟩
          (toggleDoc d).lines := by
      rw [toggleDoc_lines, ht2]
      rfl
    rw [hl2, hk0]
    exact kindOf_pragmaHead _
  · have hpb : hasPragmaOnce d.lines = false := by simpa using hp
    rcases hex : extractGuardMacro d.lines with _ | g
    · exfalso
      apply h2
      unfold kindOf
      rw [hpb, hex]
      rfl
    · have hk0 : kindOf d.lines = ProtectionKind.guard := by
        unfold kindOf
        rw [hpb, hex]
        rfl
      have ht1 : toggle d = OpOutcome.ok (pragmaHeaderLines ++ removeGuardLines g d.lines) := by
        unfold toggle
        rw [h1, hpb]
        simp only [hex]
        rfl
      have hl1 : (toggleDoc d).lines =
          pragmaLineTxt :: ([] : Line) :: removeGuardLines g d.lines := by
        rw [toggleDoc_lines, ht1]
        rfl
      have hh1 : isHeader (toggleDoc d) = true := h1
      have hp2 : hasPragmaOnce (toggleDoc d).lines = true := by
        rw [hl1]
        exact hasPragmaOnce_cons_match (by decide)
      have ht2 : toggle (toggleDoc d) = OpOutcome.ok
          (guardHeaderLines (computeMacro d.rel) ++ clearPragma (toggleDoc d).lines
            ++ guardFooterLines (computeMacro d.rel)) := by
        unfold toggle
        rw [hh1, hp2]
        rfl
      have hl2 : (toggleDoc (toggleDoc d)).lines = guardHeaderLines (computeMacro d.rel)
          ++ clearPragma (toggleDoc d).lines ++ guardFooterLines (computeMacro d.rel) := by
        rw [toggleDoc_lines, ht2]
        rfl
      rw [hl2, hk0]
      exact kindOf_guardWrapped (computeMacro_ne_nil d.rel) (computeMacro_all d.rel) _

/-- Witness for the amended C9 at the concrete classic-guard document. -/
theorem claim9_witness :
    kindOf (toggleDoc (toggleDoc docClassicGuard)).lines = kindOf docClassicGuard.lines :=
  claim9_amended docClassicGuard (by decide) (by decide)
